import Mathlib

/-!
Verification development for the damn_vulnerable_blockchain node core.

The Rust sources are shallowly embedded: pure data is translated to Lean
structures, SHA-256 over the serde_json serialization is treated as an
abstract function H on blocks (the code always hashes the block with its
cur_hash field zero-filled; the zeroing step is kept explicit in the
embedding), mutation of the transaction pool is made explicit by threading
the pool value, and Rust Result values become Except values.
-/

/-- Addresses (src/src/consensus.rs, alloy Address): 20-byte opaque
identifiers with byte-wise equality, embedded as natural numbers. -/
abbrev Address := Nat

/-- src/src/settlement.rs DvbTransaction (named IshIshTransaction in the
generation the rest of the node uses): from, to, amount. The amount is an
i64 in the source, embedded as Int. The from and to fields are renamed
from_ and to_ because both are reserved words in Lean. -/
structure IshIshTransaction where
  from_ : Address
  to_ : Address
  amount : Int
deriving DecidableEq, Repr

/-- 32-byte SHA-256 digests ([u8; 32] in the source), embedded as byte
lists. -/
abbrev Hash := List Nat

/-- The all-zero digest [0; 32]. -/
def zeroHash : Hash := List.replicate 32 0

/-- src/src/consensus.rs IshIshBlockHeader. -/
structure IshIshBlockHeader where
  coinbase : Address
  number : Nat
  nonce : Nat
  difficulty : Nat
  cur_hash : Hash
  prev_hash : Hash
deriving DecidableEq, Repr

/-- src/src/consensus.rs IshIshBlock: header plus transaction content. -/
structure IshIshBlock where
  header : IshIshBlockHeader
  content : List IshIshTransaction
deriving DecidableEq, Repr

/-- src/src/consensus.rs IshIshBlockchain: an ordered block sequence. -/
structure IshIshBlockchain where
  blocks : List IshIshBlock
deriving DecidableEq, Repr

/-- src/src/common.rs and src/src/blockchain.rs error enum. -/
inductive IshIshError where
  | ParseError
  | InvalidMessageHeader
  | EmptyMessage
  | InvalidEvent
  | MiningError
  | HashConversionFailed
  | InvalidProofOfWork
  | PrevHashMismatch
  | EmptyBlockchain
  | RequestedBlockIsNone
deriving DecidableEq, Repr

/-- The block with its cur_hash field zero-filled, as validate_pow does
before hashing (block.header.cur_hash = [0; 32]). -/
def zeroCurHash (block : IshIshBlock) : IshIshBlock :=
  { block with header := { block.header with cur_hash := zeroHash } }

/-- src/src/consensus.rs validate_pow: zero the cur_hash, hash the
serialized block (abstract H), and require the first difficulty bytes of
the digest to be zero. The source returns Ok(bool); the serialization and
digest-length failure paths cannot occur for the abstract total H, so the
embedding returns the Bool. -/
def validate_pow (H : IshIshBlock → Hash) (block : IshIshBlock) (difficulty : Nat) : Bool :=
  ((H (zeroCurHash block)).take difficulty).all (fun b => b == 0)

/-- src/src/consensus.rs IshIshBlockchain::verify_block: PoW check at the
block's own stored header difficulty (self is unused by the source body). -/
def IshIshBlockchain.verify_block (H : IshIshBlock → Hash) (block : IshIshBlock) : Except IshIshError Unit :=
  if validate_pow H block block.header.difficulty then Except.ok ()
  else Except.error IshIshError.InvalidProofOfWork

/-- The first loop of verify_chain: verify_block on every block in order,
propagating the first error. -/
def checkPowAll (H : IshIshBlock → Hash) : List IshIshBlock → Except IshIshError Unit
  | [] => Except.ok ()
  | b :: rest =>
    match IshIshBlockchain.verify_block H b with
    | Except.ok () => checkPowAll H rest
    | Except.error e => Except.error e

/-- The second loop of verify_chain: for i in 1..len, require
blocks[i].prev_hash == blocks[i-1].cur_hash, failing with PrevHashMismatch
at the first broken link. -/
def checkLinks : List IshIshBlock → Except IshIshError Unit
  | [] => Except.ok ()
  | [_] => Except.ok ()
  | b1 :: b2 :: rest =>
    if b2.header.prev_hash = b1.header.cur_hash then checkLinks (b2 :: rest)
    else Except.error IshIshError.PrevHashMismatch

/-- src/src/consensus.rs IshIshBlockchain::verify_chain: all PoW checks
first, then all link checks. -/
def IshIshBlockchain.verify_chain (H : IshIshBlock → Hash) (chain : IshIshBlockchain) : Except IshIshError Unit :=
  match checkPowAll H chain.blocks with
  | Except.ok () => checkLinks chain.blocks
  | Except.error e => Except.error e

/-- src/src/consensus.rs process_new_blockchain: adopt the received chain
iff it is strictly longer and verifies; every path returns Ok. -/
def process_new_blockchain (H : IshIshBlock → Hash) (new_blockchain current_blockchain : IshIshBlockchain) : Except IshIshError IshIshBlockchain :=
  if current_blockchain.blocks.length < new_blockchain.blocks.length then
    match IshIshBlockchain.verify_chain H new_blockchain with
    | Except.ok () => Except.ok new_blockchain
    | Except.error _ => Except.ok current_blockchain
  else Except.ok current_blockchain

/-- src/src/consensus.rs IshIshBlockchain::append: verify_block (PoW only,
no link check), then push at the end; on error the chain is unchanged,
which the embedding renders by returning the error without a chain. -/
def IshIshBlockchain.append (H : IshIshBlock → Hash) (self : IshIshBlockchain) (block : IshIshBlock) : Except IshIshError IshIshBlockchain :=
  match IshIshBlockchain.verify_block H block with
  | Except.ok () => Except.ok ⟨self.blocks ++ [block]⟩
  | Except.error e => Except.error e

/-- src/src/consensus.rs IshIshBlockHeader::no_prev. -/
def IshIshBlockHeader.no_prev (coinbase : Address) (difficulty : Nat) : IshIshBlockHeader :=
  ⟨coinbase, 0, 0, difficulty, zeroHash, zeroHash⟩

/-- src/src/consensus.rs IshIshBlockHeader::from_prev_block. -/
def IshIshBlockHeader.from_prev_block (coinbase : Address) (prev_block : IshIshBlock) (difficulty : Nat) : IshIshBlockHeader :=
  ⟨coinbase, prev_block.header.number + 1, 0, difficulty, zeroHash, prev_block.header.cur_hash⟩

/-- src/src/consensus.rs IshIshBlock::no_prev: clone the first
min(len, 3) pool transactions into the content. The source takes the pool
by mutable reference but never mutates it; the embedding threads the pool
and returns it alongside the block. -/
def IshIshBlock.no_prev (coinbase : Address) (transactions : List IshIshTransaction) (difficulty : Nat) : IshIshBlock × List IshIshTransaction :=
  let num_transactions := min transactions.length 3
  (⟨IshIshBlockHeader.no_prev coinbase difficulty, transactions.take num_transactions⟩,
   transactions)

/-- src/src/consensus.rs IshIshBlock::from_prev_block: same content rule,
header chained to the previous block. -/
def IshIshBlock.from_prev_block (coinbase : Address) (transactions : List IshIshTransaction) (prev_block : IshIshBlock) (difficulty : Nat) : IshIshBlock × List IshIshTransaction :=
  let num_transactions := min transactions.length 3
  (⟨IshIshBlockHeader.from_prev_block coinbase prev_block difficulty, transactions.take num_transactions⟩,
   transactions)

/-- src/src/consensus.rs propose_block: genesis block when the chain is
empty, else a successor of the last block (blocks.last().unwrap()). -/
def propose_block (coinbase : Address) (blockchain : IshIshBlockchain) (difficulty : Nat) (transactions : List IshIshTransaction) : IshIshBlock × List IshIshTransaction :=
  match blockchain.blocks.getLast? with
  | none => IshIshBlock.no_prev coinbase transactions difficulty
  | some mined_block => IshIshBlock.from_prev_block coinbase transactions mined_block difficulty

/-!
Settlement layer (src/src/settlement.rs). The revm InMemoryDB account map
is embedded as a total balance function: load_account on the
CacheDB-over-EmptyDB backend materializes a default account with balance
zero for absent addresses, so absent balances read as 0. Balances are
U256 values, embedded as natural numbers taken modulo 2^256, because the
ruint plus and minus operators the source uses through the alloy U256
type are the wrapping ones. The amount is an i64 and the source converts
it with the inherent ruint from, which panics on negative values — and
negative amounts are reachable, since TRA gossip and NBM block content
deserialize an attacker-chosen i64 straight into the field and
verify_chain never inspects content. The settlement operations therefore
return Option values, with none marking the panic, in the same style as
the DecodeOutcome panic of the wire codec.
-/

/-- The U256 modulus. -/
def U256MOD : Nat := 2 ^ 256

/-- The account-balance map of the revm InMemoryDB: each address's U256
balance as a natural below 2^256. -/
abbrev Ledger := Address → Nat

/-- The fresh CacheDB::new(EmptyDB::default()) state: every balance 0. -/
def emptyLedger : Ledger := fun _ => 0

/-- ruint's inherent U256::from on an i64 amount: panics (none) on
negative values, which do not fit in an unsigned 256-bit integer;
non-negative i64 values always fit. -/
def u256_from_i64 : Int → Option Nat
  | Int.ofNat n => some n
  | Int.negSucc _ => none

/-- ruint wrapping addition on U256, as the += operator of the source. -/
def u256_wrapping_add (b a : Nat) : Nat := (b + a) % U256MOD

/-- ruint wrapping subtraction on U256, as the -= operator of the
source: add the two's-complement of the subtrahend and wrap. -/
def u256_wrapping_sub (b a : Nat) : Nat := (b + (U256MOD - a % U256MOD)) % U256MOD

/-- The successful branch of increase_account: one balance bumped by the
converted amount in wrapping U256 arithmetic. -/
def creditU256 (db : Ledger) (address : Address) (a : Nat) : Ledger :=
  fun x => if x = address then u256_wrapping_add (db address) a else db x

/-- The successful branch of decrease_account: one balance lowered by the
converted amount in wrapping U256 arithmetic. -/
def debitU256 (db : Ledger) (address : Address) (a : Nat) : Ledger :=
  fun x => if x = address then u256_wrapping_sub (db address) a else db x

/-- src/src/settlement.rs increase_account: balance += U256::from(amount)
at one address (load_account on this backend always succeeds); none is
the U256::from panic on a negative amount. -/
def increase_account (db : Ledger) (address : Address) (amount : Int) : Option Ledger :=
  match u256_from_i64 amount with
  | none => none
  | some a => some (creditU256 db address a)

/-- src/src/settlement.rs decrease_account: balance -= U256::from(amount)
at one address; none is the U256::from panic on a negative amount. -/
def decrease_account (db : Ledger) (address : Address) (amount : Int) : Option Ledger :=
  match u256_from_i64 amount with
  | none => none
  | some a => some (debitU256 db address a)

/-- src/src/settlement.rs process_transaction: debit from, then credit
to, either conversion panic aborting the rest. -/
def process_transaction (db : Ledger) (tx : IshIshTransaction) : Option Ledger :=
  match decrease_account db tx.from_ tx.amount with
  | none => none
  | some db1 => increase_account db1 tx.to_ tx.amount

/-- The completed effect of one non-negative-amount transaction: debit
from, credit to, both wrapping. -/
def apply_transaction (db : Ledger) (tx : IshIshTransaction) : Ledger :=
  creditU256 (debitU256 db tx.from_ tx.amount.toNat) tx.to_ tx.amount.toNat

/-- src/src/settlement.rs remove_transaction_from_pool: linear scan that
removes the first field-equal entry and stops (break). -/
def remove_transaction_from_pool (tx : IshIshTransaction) : List IshIshTransaction → List IshIshTransaction
  | [] => []
  | t :: rest => if t = tx then rest else t :: remove_transaction_from_pool tx rest

/-- One iteration of the transaction loop of progress_state: apply the
transaction to the ledger, then evict its first pool occurrence; a panic
(none) stops all further work. -/
def settleStep (st : Option (Ledger × List IshIshTransaction)) (tx : IshIshTransaction) : Option (Ledger × List IshIshTransaction) :=
  match st with
  | none => none
  | some st =>
    match process_transaction st.1 tx with
    | none => none
    | some db2 => some (db2, remove_transaction_from_pool tx st.2)

/-- src/src/settlement.rs progress_state: credit the coinbase with 1,
then, per content transaction in order, apply it to the ledger and evict
its first pool occurrence; none is the U256::from panic on the first
negative amount. -/
def progress_state (db : Ledger) (block : IshIshBlock) (transactions : List IshIshTransaction) : Option (Ledger × List IshIshTransaction) :=
  match increase_account db block.header.coinbase 1 with
  | none => none
  | some db0 => block.content.foldl settleStep (some (db0, transactions))

/-- One iteration of the block loop of refresh_state. -/
def chainStep (st : Option (Ledger × List IshIshTransaction)) (block : IshIshBlock) : Option (Ledger × List IshIshTransaction) :=
  match st with
  | none => none
  | some st => progress_state st.1 block st.2

/-- src/src/settlement.rs refresh_state: progress_state over every block
of the chain in index order. -/
def refresh_state (db : Ledger) (chain : IshIshBlockchain) (transactions : List IshIshTransaction) : Option (Ledger × List IshIshTransaction) :=
  chain.blocks.foldl chainStep (some (db, transactions))

/-- src/src/data.rs process_blockchain_event, NBM adoption path: build a
fresh CacheDB over an EmptyDB and refresh_state the adopted chain into it
with the current pool. -/
def rebuild_on_adoption (chain : IshIshBlockchain) (transactions : List IshIshTransaction) : Option (Ledger × List IshIshTransaction) :=
  refresh_state emptyLedger chain transactions

/-- The per-block ledger transition of the spec's replay: credit the
coinbase 1, then apply each content transaction in order. -/
def apply_block_ledger (db : Ledger) (block : IshIshBlock) : Ledger :=
  block.content.foldl apply_transaction (creditU256 db block.header.coinbase 1)

/-- The deterministic replay of a chain from genesis as the spec words it:
starting from the empty ledger, apply each block's ledger transition in
index order. Stated from the spec for comparison with the code path
rebuild_on_adoption. -/
def specLedgerReplay (chain : IshIshBlockchain) : Ledger :=
  chain.blocks.foldl apply_block_ledger emptyLedger

/-!
Wire codec (src/src/data.rs and src/src/blockchain.rs,
IshIshBlockchainEvent::try_from). The input is the raw gossip frame as a
byte list. std::str::from_utf8 is embedded as the RFC 3629 validity check
the Rust validator implements; the byte-index slices str[..3] / str[3..]
panic when the string is shorter than 3 bytes or when byte 3 is not a
character boundary, so the embedding returns a three-way outcome that
makes the panic explicit.
-/

/-- A UTF-8 continuation byte: 0x80..=0xBF. -/
def contByte (b : Nat) : Bool := 0x80 ≤ b && b < 0xC0

/-- RFC 3629 well-formedness of a byte sequence, as enforced by Rust's
std::str::from_utf8. -/
def validUtf8 : List Nat → Bool
  | [] => true
  | b0 :: rest =>
    if b0 < 0x80 then validUtf8 rest
    else if b0 < 0xC2 then false
    else if b0 ≤ 0xDF then
      match rest with
      | [] => false
      | b1 :: rest2 => contByte b1 && validUtf8 rest2
    else if b0 ≤ 0xEF then
      match rest with
      | b1 :: b2 :: rest2 =>
        (if b0 = 0xE0 then 0xA0 ≤ b1 && b1 < 0xC0
         else if b0 = 0xED then 0x80 ≤ b1 && b1 < 0xA0
         else contByte b1) && contByte b2 && validUtf8 rest2
      | _ => false
    else if b0 ≤ 0xF4 then
      match rest with
      | b1 :: b2 :: b3 :: rest2 =>
        (if b0 = 0xF0 then 0x90 ≤ b1 && b1 < 0xC0
         else if b0 = 0xF4 then 0x80 ≤ b1 && b1 < 0x90
         else contByte b1) && contByte b2 && contByte b3 && validUtf8 rest2
      | _ => false
    else false

/-- Rust str::is_char_boundary at index i of a valid UTF-8 byte string:
true at the end of the string, and elsewhere iff the byte at i is not a
continuation byte. -/
def isCharBoundary (bytes : List Nat) (i : Nat) : Bool :=
  if i = bytes.length then true
  else
    match bytes.drop i with
    | [] => false
    | b :: _ => !(contByte b)

/-- src/src/data.rs IshIshBlockchainEvent, payloads kept as the byte
ranges of the frame the returned str slices borrow. -/
inductive IshIshBlockchainEvent where
  | NewBlockMined (payload : List Nat)
  | SthElse (header payload : List Nat)
  | NewSignedTransaction (payload : List Nat)
deriving DecidableEq, Repr

/-- Outcome of running try_from on a frame: a Rust panic, an Err, or an
Ok event. -/
inductive DecodeOutcome where
  | panics
  | fails (e : IshIshError)
  | event (ev : IshIshBlockchainEvent)
deriving DecidableEq, Repr

/-- The byte string NBM. -/
def nbmTag : List Nat := [78, 66, 77]

/-- The byte string TRA. -/
def traTag : List Nat := [84, 82, 65]

/-- src/src/data.rs IshIshBlockchainEvent::try_from: from_utf8 (whose Err
is converted to ParseError), then the byte slices str[..3] and str[3..]
(which panic on frames shorter than 3 bytes and on a byte 3 that splits a
multi-byte character), then dispatch on the 3-byte tag, with unknown tags
yielding SthElse rather than an error. -/
def tryFromBytes (value : List Nat) : DecodeOutcome :=
  if validUtf8 value then
    if 3 ≤ value.length && isCharBoundary value 3 then
      let header := value.take 3
      let message := value.drop 3
      if header = nbmTag then DecodeOutcome.event (IshIshBlockchainEvent.NewBlockMined message)
      else if header = traTag then DecodeOutcome.event (IshIshBlockchainEvent.NewSignedTransaction message)
      else DecodeOutcome.event (IshIshBlockchainEvent.SthElse header message)
    else DecodeOutcome.panics
  else DecodeOutcome.fails IshIshError.ParseError

/-!
Mining worker (src/src/consensus.rs mining_task). The tokio select loop
is embedded as a labelled transition system over the worker's two state
variables. Command receptions update current and running exactly as the
match arms do; the search branch is enabled only when running is set and
a candidate exists, and on success it emits the mined block (the
candidate with only nonce and cur_hash changed by proof_of_work) and
clears the candidate.
-/

/-- src/src/consensus.rs IshIshCommand. -/
inductive IshIshCommand where
  | MineBlock (block : IshIshBlock)
  | Start
  | Restart
  | Stop
deriving DecidableEq, Repr

/-- The worker's internal state: current candidate and running flag. -/
structure MinerState where
  current : Option IshIshBlock
  running : Bool
deriving DecidableEq, Repr

/-- Observable label of one iteration of the worker loop. -/
inductive MinerLabel where
  | cmd (c : IshIshCommand)
  | chanClosed
  | searchIdle
  | searchFail
  | emit (b : IshIshBlock)
deriving DecidableEq, Repr

/-- proof_of_work mutates only the nonce and cur_hash fields of its input
block: the emitted block agrees with the candidate elsewhere. -/
def sameExceptNonceAndHash (b b' : IshIshBlock) : Prop :=
  b'.header.coinbase = b.header.coinbase ∧ b'.header.number = b.header.number ∧
  b'.header.difficulty = b.header.difficulty ∧ b'.header.prev_hash = b.header.prev_hash ∧
  b'.content = b.content

/-- One iteration of the mining_task select loop. -/
inductive MinerStep : MinerState → MinerLabel → MinerState → Prop where
  | recvMine (s : MinerState) (b : IshIshBlock) :
      MinerStep s (MinerLabel.cmd (IshIshCommand.MineBlock b)) ⟨some b, s.running⟩
  | recvStop (s : MinerState) :
      MinerStep s (MinerLabel.cmd IshIshCommand.Stop) ⟨s.current, false⟩
  | recvStart (s : MinerState) :
      MinerStep s (MinerLabel.cmd IshIshCommand.Start) ⟨s.current, true⟩
  | recvRestart (s : MinerState) :
      MinerStep s (MinerLabel.cmd IshIshCommand.Restart) ⟨s.current, true⟩
  | recvClosed (s : MinerState) :
      MinerStep s MinerLabel.chanClosed s
  | searchIdle (s : MinerState) :
      s.running = false ∨ s.current = none →
      MinerStep s MinerLabel.searchIdle s
  | searchFail (s : MinerState) (b : IshIshBlock) :
      s.running = true → s.current = some b →
      MinerStep s MinerLabel.searchFail s
  | emit (s : MinerState) (b b' : IshIshBlock) :
      s.running = true → s.current = some b → sameExceptNonceAndHash b b' →
      MinerStep s (MinerLabel.emit b') ⟨none, s.running⟩

/-- A finite run of the worker loop with its label sequence. -/
inductive MinerTrace : MinerState → List MinerLabel → MinerState → Prop where
  | nil (s : MinerState) : MinerTrace s [] s
  | cons (s s' s'' : MinerState) (l : MinerLabel) (ls : List MinerLabel) :
      MinerStep s l s' → MinerTrace s' ls s'' → MinerTrace s (l :: ls) s''

/-- Labels that set the running flag: the Start and Restart commands. -/
def startsMining : MinerLabel → Bool
  | MinerLabel.cmd IshIshCommand.Start => true
  | MinerLabel.cmd IshIshCommand.Restart => true
  | _ => false

/-- Labels that emit a block on the output channel. -/
def isEmit : MinerLabel → Bool
  | MinerLabel.emit _ => true
  | _ => false

/-- The chain-link relation of the data model: the right block's prev_hash
names the left block's cur_hash. -/
def linkOk (a b : IshIshBlock) : Prop := b.header.prev_hash = a.header.cur_hash

instance (a b : IshIshBlock) : Decidable (linkOk a b) :=
  inferInstanceAs (Decidable (b.header.prev_hash = a.header.cur_hash))

instance : DecidableRel linkOk := fun _ _ => inferInstance

instance : DecidableEq (Except IshIshError Unit) := fun a b =>
  match a, b with
  | Except.ok (), Except.ok () => isTrue rfl
  | Except.ok (), Except.error _ => isFalse (fun h => Except.noConfusion h)
  | Except.error _, Except.ok () => isFalse (fun h => Except.noConfusion h)
  | Except.error e1, Except.error e2 =>
    if h : e1 = e2 then isTrue (by rw [h])
    else isFalse (fun hc => h (by cases hc; rfl))

/-!
Concrete evaluation data: a computable stand-in for the abstract
SHA-256-of-JSON digest together with small blocks, chains and pools, used
to evaluate the theorems on closed inputs.
-/

/-- A concrete executable digest: 32 copies of the block's nonce parity,
so PoW at positive difficulty succeeds exactly for even nonces. -/
def demoHash (b : IshIshBlock) : Hash := List.replicate 32 (b.header.nonce % 2)

/-- A sample transaction. -/
def demoTx : IshIshTransaction := ⟨1, 2, 5⟩

/-- A second sample transaction. -/
def demoTx2 : IshIshTransaction := ⟨3, 4, 7⟩

/-- A sample two-entry pool. -/
def demoPool : List IshIshTransaction := [demoTx, demoTx2]

/-- A block that is demoHash-PoW-valid at its difficulty 1 (nonce 0). -/
def demoBlockGood : IshIshBlock := ⟨⟨10, 0, 0, 1, zeroHash, zeroHash⟩, [demoTx]⟩

/-- A block that fails demoHash PoW at its difficulty 1 (nonce 1). -/
def demoBlockBad : IshIshBlock := ⟨⟨10, 0, 1, 1, zeroHash, zeroHash⟩, []⟩

/-- A single-block chain whose tip digest demoBlockGood does not link to. -/
def demoTipBlock : IshIshBlock := ⟨⟨10, 0, 0, 0, List.replicate 32 7, zeroHash⟩, []⟩

/-- The chain holding just demoTipBlock. -/
def demoChain : IshIshBlockchain := ⟨[demoTipBlock]⟩

/-- A difficulty-0 genesis block with an arbitrary stored digest. -/
def demoZeroDiffB0 : IshIshBlock := ⟨⟨10, 0, 1, 0, List.replicate 32 9, zeroHash⟩, []⟩

/-- A difficulty-0 successor correctly linked to demoZeroDiffB0. -/
def demoZeroDiffB1 : IshIshBlock := ⟨⟨10, 1, 1, 0, zeroHash, List.replicate 32 9⟩, []⟩

/-- A well-linked all-difficulty-0 chain of length 2. -/
def demoZeroDiffChain : IshIshBlockchain := ⟨[demoZeroDiffB0, demoZeroDiffB1]⟩

/-- A worker state holding a candidate with mining running. -/
def demoStopState : MinerState := ⟨some demoBlockGood, true⟩

/-- A transaction with a negative amount, injectable through TRA or NBM
gossip since deserialization and chain verification never check the
sign. -/
def negAmountTx : IshIshTransaction := ⟨1, 2, -1⟩

/-- A block carrying the negative-amount transaction. -/
def negAmountBlock : IshIshBlock := ⟨⟨10, 0, 0, 0, zeroHash, zeroHash⟩, [negAmountTx]⟩

/-!
Shared lemmas about the two verification loops, the settlement folds and
the worker transition system.
-/

theorem checkPowAll_ok_iff (H : IshIshBlock → Hash) (l : List IshIshBlock) :
    checkPowAll H l = Except.ok () ↔ ∀ b ∈ l, validate_pow H b b.header.difficulty = true := by
  induction l with
  | nil => simp [checkPowAll]
  | cons b rest ih =>
    by_cases h : validate_pow H b b.header.difficulty = true
    · simp [checkPowAll, IshIshBlockchain.verify_block, h, ih]
    · simp [checkPowAll, IshIshBlockchain.verify_block, h]

theorem checkPowAll_error (H : IshIshBlock → Hash) (l : List IshIshBlock)
    (h : ¬ ∀ b ∈ l, validate_pow H b b.header.difficulty = true) :
    checkPowAll H l = Except.error IshIshError.InvalidProofOfWork := by
  induction l with
  | nil => exact absurd (by simp) h
  | cons b rest ih =>
    by_cases hb : validate_pow H b b.header.difficulty = true
    · have hrest : ¬ ∀ x ∈ rest, validate_pow H x x.header.difficulty = true := by
        intro hall
        exact h (by
          intro x hx
          rcases List.mem_cons.1 hx with rfl | hx'
          · exact hb
          · exact hall x hx')
      simp [checkPowAll, IshIshBlockchain.verify_block, hb, ih hrest]
    · simp [checkPowAll, IshIshBlockchain.verify_block, hb]

theorem checkLinks_ok_iff (l : List IshIshBlock) :
    checkLinks l = Except.ok () ↔ List.Chain' linkOk l := by
  induction l with
  | nil => simp [checkLinks]
  | cons b rest ih =>
    cases rest with
    | nil => simp [checkLinks]
    | cons b2 rest2 =>
      by_cases h : b2.header.prev_hash = b.header.cur_hash
      · simp [checkLinks, h, ih, List.chain'_cons, linkOk]
      · simp [checkLinks, h, List.chain'_cons, linkOk]

theorem checkLinks_error (l : List IshIshBlock) (h : ¬ List.Chain' linkOk l) :
    checkLinks l = Except.error IshIshError.PrevHashMismatch := by
  induction l with
  | nil => exact absurd List.chain'_nil h
  | cons b rest ih =>
    cases rest with
    | nil => exact absurd (List.chain'_singleton b) h
    | cons b2 rest2 =>
      rw [List.chain'_cons] at h
      by_cases hl : b2.header.prev_hash = b.header.cur_hash
      · have hrest : ¬ List.Chain' linkOk (b2 :: rest2) := by
          intro hc
          exact h ⟨hl, hc⟩
        simp [checkLinks, hl, ih hrest]
      · simp [checkLinks, hl, linkOk]

theorem verify_chain_ok_of_zero_difficulty (H : IshIshBlock → Hash) (chain : IshIshBlockchain)
    (hd : ∀ b ∈ chain.blocks, b.header.difficulty = 0)
    (hl : List.Chain' linkOk chain.blocks) :
    IshIshBlockchain.verify_chain H chain = Except.ok () := by
  unfold IshIshBlockchain.verify_chain
  rw [(checkPowAll_ok_iff H chain.blocks).2 ?_]
  · exact (checkLinks_ok_iff chain.blocks).2 hl
  · intro b hb
    simp [validate_pow, hd b hb]

theorem u256_from_i64_nonneg (amount : Int) (h : 0 ≤ amount) :
    u256_from_i64 amount = some amount.toNat := by
  cases amount with
  | ofNat n => rfl
  | negSucc n => simp at h

theorem increase_account_some (db : Ledger) (address : Address) (amount : Int) (h : 0 ≤ amount) :
    increase_account db address amount = some (creditU256 db address amount.toNat) := by
  unfold increase_account
  rw [u256_from_i64_nonneg amount h]

theorem decrease_account_some (db : Ledger) (address : Address) (amount : Int) (h : 0 ≤ amount) :
    decrease_account db address amount = some (debitU256 db address amount.toNat) := by
  unfold decrease_account
  rw [u256_from_i64_nonneg amount h]

theorem process_transaction_some (db : Ledger) (tx : IshIshTransaction) (h : 0 ≤ tx.amount) :
    process_transaction db tx = some (apply_transaction db tx) := by
  unfold process_transaction apply_transaction
  rw [decrease_account_some db tx.from_ tx.amount h]
  exact increase_account_some _ tx.to_ tx.amount h

theorem settleStep_some (db : Ledger) (pool : List IshIshTransaction) (tx : IshIshTransaction)
    (h : 0 ≤ tx.amount) :
    settleStep (some (db, pool)) tx
      = some (apply_transaction db tx, remove_transaction_from_pool tx pool) := by
  show (match process_transaction db tx with
        | none => none
        | some db2 => some (db2, remove_transaction_from_pool tx pool))
      = some (apply_transaction db tx, remove_transaction_from_pool tx pool)
  rw [process_transaction_some db tx h]

theorem txFoldOpt (l : List IshIshTransaction) :
    ∀ (db : Ledger) (pool : List IshIshTransaction),
      (∀ tx ∈ l, 0 ≤ tx.amount) →
      l.foldl settleStep (some (db, pool))
        = some (l.foldl apply_transaction db,
                l.foldl (fun p tx => remove_transaction_from_pool tx p) pool) := by
  induction l with
  | nil => intro db pool _; rfl
  | cons t rest ih =>
    intro db pool h
    simp only [List.foldl]
    rw [settleStep_some db pool t (h t (List.mem_cons_self t rest))]
    exact ih (apply_transaction db t) (remove_transaction_from_pool t pool)
      (fun tx hx => h tx (List.mem_cons_of_mem t hx))

theorem progress_state_some (db : Ledger) (block : IshIshBlock) (pool : List IshIshTransaction)
    (hnn : ∀ tx ∈ block.content, 0 ≤ tx.amount) :
    progress_state db block pool
      = some (block.content.foldl apply_transaction (creditU256 db block.header.coinbase 1),
              block.content.foldl (fun p tx => remove_transaction_from_pool tx p) pool) := by
  unfold progress_state
  rw [increase_account_some db block.header.coinbase 1 (by norm_num)]
  exact txFoldOpt block.content (creditU256 db block.header.coinbase 1) pool hnn

theorem blockFoldOpt (l : List IshIshBlock) :
    ∀ (db : Ledger) (pool : List IshIshTransaction),
      (∀ b ∈ l, ∀ tx ∈ b.content, 0 ≤ tx.amount) →
      l.foldl chainStep (some (db, pool))
        = some (l.foldl apply_block_ledger db,
                l.foldl (fun p b => b.content.foldl (fun p2 tx => remove_transaction_from_pool tx p2) p) pool) := by
  induction l with
  | nil => intro db pool _; rfl
  | cons b rest ih =>
    intro db pool h
    simp only [List.foldl]
    have hstep : chainStep (some (db, pool)) b
        = some (apply_block_ledger db b,
                b.content.foldl (fun p2 tx => remove_transaction_from_pool tx p2) pool) := by
      unfold chainStep apply_block_ledger
      exact progress_state_some db b pool (h b (List.mem_cons_self b rest))
    rw [hstep]
    exact ih (apply_block_ledger db b) _ (fun x hx => h x (List.mem_cons_of_mem b hx))

theorem remove_eq_erase (tx : IshIshTransaction) (p : List IshIshTransaction) :
    remove_transaction_from_pool tx p = p.erase tx := by
  induction p with
  | nil => rfl
  | cons t rest ih =>
    rw [List.erase_cons]
    by_cases h : t = tx
    · simp [remove_transaction_from_pool, h]
    · simp only [remove_transaction_from_pool, if_neg h, ih]
      rw [if_neg (by simpa using h)]

theorem creditU256_frame (db : Ledger) (address : Address) (a : Nat) (x : Address)
    (h : x ≠ address) : creditU256 db address a x = db x := by
  simp [creditU256, h]

theorem apply_transaction_frame (db : Ledger) (tx : IshIshTransaction) (x : Address)
    (h1 : x ≠ tx.from_) (h2 : x ≠ tx.to_) : apply_transaction db tx x = db x := by
  simp [apply_transaction, creditU256, debitU256, h1, h2]

theorem foldl_apply_transaction_frame (l : List IshIshTransaction) :
    ∀ (db : Ledger) (x : Address),
      (∀ tx ∈ l, x ≠ tx.from_ ∧ x ≠ tx.to_) → l.foldl apply_transaction db x = db x := by
  induction l with
  | nil => intro db x _; rfl
  | cons t rest ih =>
    intro db x h
    simp only [List.foldl]
    rw [ih (apply_transaction db t) x (fun tx hx => h tx (List.mem_cons_of_mem t hx))]
    exact apply_transaction_frame db t x (h t (List.mem_cons_self t rest)).1 (h t (List.mem_cons_self t rest)).2

theorem minerStep_not_start_keeps_stopped (s s' : MinerState) (l : MinerLabel)
    (hstep : MinerStep s l s') (hrun : s.running = false) (hns : startsMining l = false) :
    s'.running = false := by
  cases hstep <;> simp_all [startsMining]

theorem minerStep_emit_requires_running (s s' : MinerState) (l : MinerLabel)
    (hstep : MinerStep s l s') (he : isEmit l = true) : s.running = true := by
  cases hstep <;> simp_all [isEmit]

theorem minerTrace_stopped_no_emit (ls : List MinerLabel) :
    ∀ s sf : MinerState, MinerTrace s ls sf → s.running = false →
      (∀ l ∈ ls, startsMining l = false) → ∀ l ∈ ls, isEmit l = false := by
  induction ls with
  | nil => intro s sf _ _ _ l hl; cases hl
  | cons l0 rest ih =>
    intro s sf htr hrun hns l hl
    cases htr with
    | cons _ s' _ _ _ hstep htr' =>
      rcases List.mem_cons.1 hl with rfl | hl'
      · cases hemit : isEmit l with
        | false => rfl
        | true =>
          rw [minerStep_emit_requires_running s s' l hstep hemit] at hrun
          cases hrun
      · have hrun' : s'.running = false :=
          minerStep_not_start_keeps_stopped s s' l0 hstep hrun (hns l0 (List.mem_cons_self l0 rest))
        exact ih s' sf htr' hrun' (fun x hx => hns x (List.mem_cons_of_mem l0 hx)) l hl'

/-- C1: process_new_blockchain adopts the received chain exactly when it
is strictly longer than the current one and verify_chain accepts it; in
every other case (shorter, equal length, or a longer chain that fails
verification) it returns the current chain, and it always returns Ok. -/
theorem process_new_blockchain_fork_choice (H : IshIshBlock → Hash)
    (new_blockchain current_blockchain : IshIshBlockchain) :
    process_new_blockchain H new_blockchain current_blockchain =
      Except.ok
        (if current_blockchain.blocks.length < new_blockchain.blocks.length ∧
            IshIshBlockchain.verify_chain H new_blockchain = Except.ok ()
         then new_blockchain else current_blockchain) := by
  unfold process_new_blockchain
  by_cases hl : current_blockchain.blocks.length < new_blockchain.blocks.length
  · rw [if_pos hl]
    cases hv : IshIshBlockchain.verify_chain H new_blockchain with
    | ok u =>
      cases u
      rw [if_pos ⟨hl, rfl⟩]
    | error e =>
      rw [if_neg (by simp)]
  · rw [if_neg hl, if_neg (fun hcon => hl hcon.1)]

/-- C2: verify_chain succeeds iff every block is PoW-valid at its own
stored difficulty and every adjacent pair is correctly linked; when some
block fails PoW the result is InvalidProofOfWork (all PoW checks run
before any link check), and when PoW all passes but a link is broken the
result is PrevHashMismatch. -/
theorem verify_chain_characterization (H : IshIshBlock → Hash) (chain : IshIshBlockchain) :
    (IshIshBlockchain.verify_chain H chain = Except.ok () ↔
      ((∀ b ∈ chain.blocks, validate_pow H b b.header.difficulty = true) ∧
        List.Chain' linkOk chain.blocks))
    ∧ ((¬ ∀ b ∈ chain.blocks, validate_pow H b b.header.difficulty = true) →
        IshIshBlockchain.verify_chain H chain = Except.error IshIshError.InvalidProofOfWork)
    ∧ ((∀ b ∈ chain.blocks, validate_pow H b b.header.difficulty = true) →
        (¬ List.Chain' linkOk chain.blocks) →
        IshIshBlockchain.verify_chain H chain = Except.error IshIshError.PrevHashMismatch) := by
  refine ⟨⟨?_, ?_⟩, ?_, ?_⟩
  · intro h
    unfold IshIshBlockchain.verify_chain at h
    cases hp : checkPowAll H chain.blocks with
    | ok u =>
      cases u
      rw [hp] at h
      exact ⟨(checkPowAll_ok_iff H chain.blocks).1 hp, (checkLinks_ok_iff chain.blocks).1 h⟩
    | error e =>
      rw [hp] at h
      cases h
  · rintro ⟨hpow, hlink⟩
    unfold IshIshBlockchain.verify_chain
    rw [(checkPowAll_ok_iff H chain.blocks).2 hpow]
    exact (checkLinks_ok_iff chain.blocks).2 hlink
  · intro hpow
    unfold IshIshBlockchain.verify_chain
    rw [checkPowAll_error H chain.blocks hpow]
  · intro hpow hlink
    unfold IshIshBlockchain.verify_chain
    rw [(checkPowAll_ok_iff H chain.blocks).2 hpow]
    exact checkLinks_error chain.blocks hlink

/-- Witness for C2: the chain holding only demoBlockBad (odd nonce, as
demoHash sees it) is rejected with InvalidProofOfWork. -/
theorem verify_chain_characterization_witness :
    IshIshBlockchain.verify_chain demoHash ⟨[demoBlockBad]⟩ = Except.error IshIshError.InvalidProofOfWork :=
  (verify_chain_characterization demoHash ⟨[demoBlockBad]⟩).2.1 (by decide)

/-- C3 counterexample: on the chain holding negAmountBlock, the rebuild
performed on adoption panics in U256::from instead of producing replayed
balances, refuting the universally quantified rebuild claim. -/
theorem rebuild_negative_amount_panics :
    rebuild_on_adoption ⟨[negAmountBlock]⟩ [] = none := rfl

/-- C3 amended: for every chain all of whose transaction amounts are
non-negative (a chain with a negative amount makes the rebuild panic in
the U256 conversion, as the counterexample shows), the rebuild done on
chain adoption (fresh empty ledger, then refresh_state over the adopted
chain) completes, makes the balances the deterministic replay of the
chain from genesis in wrapping U256 arithmetic, subjects the pool to the
same per-block eviction folds, and rebuilding again from the same chain
yields the same balances as rebuilding once. -/
theorem rebuild_replay_idempotent (chain : IshIshBlockchain) (pool : List IshIshTransaction)
    (hnn : ∀ b ∈ chain.blocks, ∀ tx ∈ b.content, 0 ≤ tx.amount) :
    rebuild_on_adoption chain pool
      = some (specLedgerReplay chain,
              chain.blocks.foldl (fun p b => b.content.foldl (fun p2 tx => remove_transaction_from_pool tx p2) p) pool)
    ∧ (rebuild_on_adoption chain
          (chain.blocks.foldl (fun p b => b.content.foldl (fun p2 tx => remove_transaction_from_pool tx p2) p) pool)).map Prod.fst
        = (rebuild_on_adoption chain pool).map Prod.fst := by
  constructor
  · exact blockFoldOpt chain.blocks emptyLedger pool hnn
  · unfold rebuild_on_adoption refresh_state
    rw [blockFoldOpt chain.blocks emptyLedger _ hnn, blockFoldOpt chain.blocks emptyLedger pool hnn]
    rfl

/-- Witness for C3 amended: rebuilding the single-good-block chain over
the two-entry pool yields the replayed ledger and evicts demoTx. -/
theorem rebuild_replay_idempotent_witness :
    rebuild_on_adoption ⟨[demoBlockGood]⟩ demoPool
      = some (specLedgerReplay ⟨[demoBlockGood]⟩, [demoTx2]) :=
  (rebuild_replay_idempotent ⟨[demoBlockGood]⟩ demoPool (by decide)).1

/-- C4 counterexample: progress_state on negAmountBlock panics in
U256::from (after the coinbase credit, before any eviction) instead of
performing the claimed debit, credit and pool eviction, refuting the
universally quantified transition claim. -/
theorem progress_state_negative_amount_panics :
    progress_state emptyLedger negAmountBlock [negAmountTx] = none := rfl

/-- C4 amended: for every block all of whose content amounts are
non-negative (a negative amount makes progress_state panic in the U256
conversion, as the counterexample shows), progress_state credits the
coinbase with exactly 1 and then folds the content transactions in order
over ledger and pool, where each transaction debits from and credits to
in wrapping U256 arithmetic and removes at most the first field-equal
pool occurrence (remove_transaction_from_pool is List.erase); balances of
addresses that are neither the coinbase nor a party to any content
transaction are unchanged. -/
theorem progress_state_block_transition (db : Ledger) (block : IshIshBlock) (pool : List IshIshTransaction)
    (hnn : ∀ tx ∈ block.content, 0 ≤ tx.amount) :
    progress_state db block pool =
      some (block.content.foldl apply_transaction (creditU256 db block.header.coinbase 1),
            block.content.foldl (fun p tx => remove_transaction_from_pool tx p) pool)
    ∧ (∀ tx p, remove_transaction_from_pool tx p = p.erase tx)
    ∧ (∀ a, a ≠ block.header.coinbase →
        (∀ tx ∈ block.content, a ≠ tx.from_ ∧ a ≠ tx.to_) →
        block.content.foldl apply_transaction (creditU256 db block.header.coinbase 1) a = db a) := by
  refine ⟨progress_state_some db block pool hnn, remove_eq_erase, ?_⟩
  intro a hc hparty
  rw [foldl_apply_transaction_frame block.content (creditU256 db block.header.coinbase 1) a hparty]
  exact creditU256_frame db block.header.coinbase 1 a hc

/-- Witness for C4 amended: applying demoBlockGood (coinbase 10, content
demoTx between 1 and 2) to the empty ledger over the two-entry pool
completes and evicts demoTx; its frame part leaves the balance of
uninvolved address 99 at 0. -/
theorem progress_state_block_transition_witness :
    progress_state emptyLedger demoBlockGood demoPool
      = some (demoBlockGood.content.foldl apply_transaction (creditU256 emptyLedger 10 1), [demoTx2]) ∧
    demoBlockGood.content.foldl apply_transaction (creditU256 emptyLedger 10 1) 99 = emptyLedger 99 :=
  ⟨(progress_state_block_transition emptyLedger demoBlockGood demoPool (by decide)).1,
   (progress_state_block_transition emptyLedger demoBlockGood demoPool (by decide)).2.2 99
     (by decide) (by decide)⟩

/-- C5 counterexample: the two-byte frame holding the ASCII bytes A B is
valid UTF-8 but shorter than 3 bytes; try_from hits the out-of-range byte
slice and panics instead of returning ParseError, refuting the claim that
short frames fail with ParseError. -/
theorem tryFromBytes_short_frame_panics :
    tryFromBytes [65, 66] = DecodeOutcome.panics ∧
    tryFromBytes [65, 66] ≠ DecodeOutcome.fails IshIshError.ParseError := by
  constructor
  · rfl
  · intro h
    cases h

/-- C5 amended: decoding fails with ParseError exactly on non-UTF-8
bytes; on valid UTF-8 frames shorter than 3 bytes, or whose third byte
position splits a multi-byte character, the byte slice panics; otherwise
the first three bytes select the event, NBM giving NewBlockMined, TRA
giving NewSignedTransaction, and any other tag the SthElse variant rather
than an error. -/
theorem tryFromBytes_characterization (value : List Nat) :
    (validUtf8 value = false →
      tryFromBytes value = DecodeOutcome.fails IshIshError.ParseError)
    ∧ (validUtf8 value = true → (value.length < 3 ∨ isCharBoundary value 3 = false) →
      tryFromBytes value = DecodeOutcome.panics)
    ∧ (validUtf8 value = true → 3 ≤ value.length → isCharBoundary value 3 = true →
      tryFromBytes value =
        (if value.take 3 = nbmTag then
          DecodeOutcome.event (IshIshBlockchainEvent.NewBlockMined (value.drop 3))
        else if value.take 3 = traTag then
          DecodeOutcome.event (IshIshBlockchainEvent.NewSignedTransaction (value.drop 3))
        else
          DecodeOutcome.event (IshIshBlockchainEvent.SthElse (value.take 3) (value.drop 3)))) := by
  refine ⟨?_, ?_, ?_⟩
  · intro h
    simp [tryFromBytes, h]
  · intro hv hbad
    have hcond : (3 ≤ value.length && isCharBoundary value 3) = false := by
      rcases hbad with hlen | hcb
      · simp [Nat.not_le.2 hlen]
      · simp [hcb]
    simp [tryFromBytes, hv, hcond]
  · intro hv hlen hcb
    have hcond : (3 ≤ value.length && isCharBoundary value 3) = true := by
      simp [hlen, hcb]
    simp only [tryFromBytes, hv, hcond, if_true]

/-- Witness for C5 amended: the frame NBMx decodes to NewBlockMined with
payload x. -/
theorem tryFromBytes_characterization_witness :
    tryFromBytes [78, 66, 77, 120] =
      DecodeOutcome.event (IshIshBlockchainEvent.NewBlockMined [120]) :=
  ((tryFromBytes_characterization [78, 66, 77, 120]).2.2 (by decide) (by decide) (by decide)).trans
    (by decide)

/-- C6: append runs only the PoW check of verify_block and never the
chain-link check: any block PoW-valid at its own stored difficulty is
pushed at the end of the chain whatever its prev_hash is, and a
PoW-invalid block yields InvalidProofOfWork with no new chain. -/
theorem append_ignores_link (H : IshIshBlock → Hash) (chain : IshIshBlockchain) (block : IshIshBlock) :
    (validate_pow H block block.header.difficulty = true →
      IshIshBlockchain.append H chain block = Except.ok ⟨chain.blocks ++ [block]⟩)
    ∧ (validate_pow H block block.header.difficulty = false →
      IshIshBlockchain.append H chain block = Except.error IshIshError.InvalidProofOfWork) := by
  unfold IshIshBlockchain.append IshIshBlockchain.verify_block
  constructor
  · intro h
    rw [if_pos h]
  · intro h
    rw [if_neg (by simp [h])]

/-- Witness for C6: demoBlockGood does not link to demoChain's tip, yet
append accepts it and pushes it. -/
theorem append_ignores_link_witness :
    demoBlockGood.header.prev_hash ≠ demoTipBlock.header.cur_hash ∧
    IshIshBlockchain.append demoHash demoChain demoBlockGood =
      Except.ok ⟨[demoTipBlock, demoBlockGood]⟩ :=
  ⟨by decide, (append_ignores_link demoHash demoChain demoBlockGood).1 (by decide)⟩

/-- C7: a stored difficulty of 0 makes validate_pow true vacuously (the
all-zero check over the first 0 digest bytes), every well-linked chain of
difficulty-0 blocks passes verify_chain, and any such chain longer than
the current one is adopted by the fork-choice rule. -/
theorem difficulty_zero_disables_pow (H : IshIshBlock → Hash) (block : IshIshBlock)
    (chain cur : IshIshBlockchain) :
    (block.header.difficulty = 0 →
      validate_pow H block block.header.difficulty = true)
    ∧ ((∀ b ∈ chain.blocks, b.header.difficulty = 0) → List.Chain' linkOk chain.blocks →
      IshIshBlockchain.verify_chain H chain = Except.ok ())
    ∧ ((∀ b ∈ chain.blocks, b.header.difficulty = 0) → List.Chain' linkOk chain.blocks →
      cur.blocks.length < chain.blocks.length →
      process_new_blockchain H chain cur = Except.ok chain) := by
  refine ⟨?_, verify_chain_ok_of_zero_difficulty H chain, ?_⟩
  · intro h
    simp [validate_pow, h]
  · intro hd hl hlen
    unfold process_new_blockchain
    rw [if_pos hlen, verify_chain_ok_of_zero_difficulty H chain hd hl]

/-- Witness for C7: the linked all-difficulty-0 chain of length 2 (whose
blocks would fail demoHash PoW at any positive difficulty) is adopted
over the empty chain. -/
theorem difficulty_zero_disables_pow_witness :
    process_new_blockchain demoHash demoZeroDiffChain ⟨[]⟩ = Except.ok demoZeroDiffChain :=
  (difficulty_zero_disables_pow demoHash demoZeroDiffB0 demoZeroDiffChain ⟨[]⟩).2.2
    (by decide)
    (by simp [demoZeroDiffChain, demoZeroDiffB0, demoZeroDiffB1, List.chain'_cons, linkOk])
    (by decide)

/-- C8: propose_block on an empty chain yields the genesis header
(number 0, nonce 0, the given difficulty, all-zero cur_hash and
prev_hash) and on a chain with last block P the successor header
(number P.number+1, nonce 0, all-zero cur_hash, prev_hash P.cur_hash),
in both cases with the first min(3, pool length) pool transactions in
order as content. -/
theorem propose_block_spec (coinbase : Address) (blockchain : IshIshBlockchain)
    (difficulty : Nat) (pool : List IshIshTransaction) :
    (blockchain.blocks = [] →
      (propose_block coinbase blockchain difficulty pool).1 =
        ⟨⟨coinbase, 0, 0, difficulty, zeroHash, zeroHash⟩, pool.take (min 3 pool.length)⟩)
    ∧ (∀ P, blockchain.blocks.getLast? = some P →
      (propose_block coinbase blockchain difficulty pool).1 =
        ⟨⟨coinbase, P.header.number + 1, 0, difficulty, zeroHash, P.header.cur_hash⟩,
          pool.take (min 3 pool.length)⟩) := by
  constructor
  · intro h
    unfold propose_block
    rw [h]
    simp [IshIshBlock.no_prev, IshIshBlockHeader.no_prev, Nat.min_comm]
  · intro P hP
    unfold propose_block
    rw [hP]
    simp [IshIshBlock.from_prev_block, IshIshBlockHeader.from_prev_block, Nat.min_comm]

/-- Witness for C8: concrete genesis and successor propositions over the
two-entry pool. -/
theorem propose_block_spec_witness :
    (propose_block 7 ⟨[]⟩ 2 demoPool).1 =
      ⟨⟨7, 0, 0, 2, zeroHash, zeroHash⟩, [demoTx, demoTx2]⟩ ∧
    (propose_block 7 demoChain 2 demoPool).1 =
      ⟨⟨7, 1, 0, 2, zeroHash, List.replicate 32 7⟩, [demoTx, demoTx2]⟩ :=
  ⟨((propose_block_spec 7 ⟨[]⟩ 2 demoPool).1 rfl).trans (by decide),
   ((propose_block_spec 7 demoChain 2 demoPool).2 demoTipBlock (by decide)).trans (by decide)⟩

/-- C9: in the mining worker state machine, once a Stop command is
processed, no block is emitted before a later Start or Restart command:
every emission step requires the running flag, Stop clears it, and only
Start and Restart set it again. -/
theorem mining_stop_law (s sf : MinerState) (mid : List MinerLabel)
    (htr : MinerTrace s (MinerLabel.cmd IshIshCommand.Stop :: mid) sf)
    (hns : ∀ l ∈ mid, startsMining l = false) :
    ∀ l ∈ mid, isEmit l = false := by
  cases htr with
  | cons _ s' _ _ _ hstep htr' =>
    have hrun : s'.running = false := by
      cases hstep
      rfl
    exact minerTrace_stopped_no_emit mid s' sf htr' hrun hns

/-- Witness for C9: a concrete run Stop, MineBlock, search step from a
running state with a candidate emits nothing. -/
theorem mining_stop_law_witness :
    isEmit (MinerLabel.cmd (IshIshCommand.MineBlock demoBlockGood)) = false := by
  have htr : MinerTrace demoStopState
      [MinerLabel.cmd IshIshCommand.Stop,
       MinerLabel.cmd (IshIshCommand.MineBlock demoBlockGood),
       MinerLabel.searchIdle] ⟨some demoBlockGood, false⟩ :=
    MinerTrace.cons _ _ _ _ _ (MinerStep.recvStop demoStopState)
      (MinerTrace.cons _ _ _ _ _ (MinerStep.recvMine _ demoBlockGood)
        (MinerTrace.cons _ _ _ _ _ (MinerStep.searchIdle _ (Or.inl rfl))
          (MinerTrace.nil _)))
  exact mining_stop_law demoStopState ⟨some demoBlockGood, false⟩ _ htr (by decide) _ (by decide)

/-- C10: block construction returns the transaction pool exactly as it
was handed in: propose_block and both IshIshBlock constructors only clone
pool entries into the block content. -/
theorem propose_block_pool_frame (coinbase : Address) (blockchain : IshIshBlockchain)
    (difficulty : Nat) (pool : List IshIshTransaction) :
    (propose_block coinbase blockchain difficulty pool).2 = pool
    ∧ (IshIshBlock.no_prev coinbase pool difficulty).2 = pool
    ∧ ∀ P, (IshIshBlock.from_prev_block coinbase pool P difficulty).2 = pool := by
  refine ⟨?_, rfl, fun P => rfl⟩
  unfold propose_block
  cases blockchain.blocks.getLast? <;> rfl
